import Mathlib

/-!
Verification of the conductor runtime of the serverless composition engine
(src/conductor.js). The JavaScript code is shallowly embedded: JSON values
become the inductive JValue, the AST-to-FSM compiler becomes a mutual
recursion over an AST inductive, and each stateful handler of the step loop
becomes an explicit state-passing function over ActState. External effects
(the redis barrier store) are modelled as an explicit key-value map.
-/

namespace Conductor

/-- A JavaScript value as it flows through the conductor: the JSON values
plus the two non-JSON cases the code distinguishes, undefined and values of
function type. Numbers are modelled as integers (the code only manipulates
indices and counts). -/
inductive JValue where
  | undef : JValue
  | null : JValue
  | bool (b : Bool) : JValue
  | num (n : Int) : JValue
  | str (s : String) : JValue
  | func : JValue
  | arr (elems : List JValue) : JValue
  | obj (fields : List (String × JValue)) : JValue

/-- isObject from conductor.js line 81: typeof obj is object, obj is not
null and not an array. -/
def isObject : JValue → Bool
  | .obj _ => true
  | _ => false

def isFunc : JValue → Bool
  | .func => true
  | _ => false

def isUndef : JValue → Bool
  | .undef => true
  | _ => false

/-- The JavaScript typeof operator restricted to the modelled values. -/
def jsTypeof : JValue → String
  | .undef => "undefined"
  | .null => "object"
  | .bool _ => "boolean"
  | .num _ => "number"
  | .str _ => "string"
  | .func => "function"
  | .arr _ => "object"
  | .obj _ => "object"

/-- Truthiness of a JavaScript value. -/
def jsTruthy : JValue → Bool
  | .undef => false
  | .null => false
  | .bool b => b
  | .num n => n != 0
  | .str s => s != ""
  | .func => true
  | .arr _ => true
  | .obj _ => true

/-- Lookup of a property in an object field list; the first occurrence of a
key wins, matching JavaScript objects, which hold each key once. -/
def jsLookup (fields : List (String × JValue)) (k : String) : Option JValue :=
  match fields with
  | [] => none
  | (k1, v) :: rest => if k1 = k then some v else jsLookup rest k

/-- Property access v.k: undefined when v is not an object or the key is
missing. Property access on null or undefined throws in JavaScript; the
code only reads properties after an isObject or typeof test, so the throw
case is never exercised and is modelled as undefined. -/
def getField (v : JValue) (k : String) : JValue :=
  match v with
  | .obj fields => (jsLookup fields k).getD JValue.undef
  | _ => JValue.undef

/-- The test written in the code as: the error property is not undefined. -/
def errorDefined (v : JValue) : Bool :=
  match getField v "error" with
  | .undef => false
  | _ => true

/-- Write one key of an object, replacing the existing binding in place or
appending a fresh one, as JavaScript property assignment does. -/
def setKey : List (String × JValue) → String → JValue → List (String × JValue)
  | [], k, v => [(k, v)]
  | (k1, v1) :: rest, k, v =>
    if k1 = k then (k, v) :: rest else (k1, v1) :: setKey rest k v

/-- Object.assign acc m: every binding of m is written into acc. -/
def objAssign (acc m : List (String × JValue)) : List (String × JValue) :=
  m.foldl (fun a kv => setKey a kv.1 kv.2) acc

mutual

/-- JSON.parse of JSON.stringify of a value, as used to deep-clone params
(conductor.js line 254). Inside objects, fields holding undefined or a
function are dropped; inside arrays such elements become null. A top level
undefined or function does not survive the round trip (stringify yields
undefined); that case is unreachable in the code, which tests for both
before cloning, and is mapped to undefined here. -/
def jsonRoundTrip : JValue → JValue
  | .undef => .undef
  | .null => .null
  | .bool b => .bool b
  | .num n => .num n
  | .str s => .str s
  | .func => .undef
  | .arr xs => .arr (rtElems xs)
  | .obj fs => .obj (rtFields fs)

def rtElems : List JValue → List JValue
  | [] => []
  | v :: vs =>
    (match v with
      | .undef => .null
      | .func => .null
      | w => jsonRoundTrip w) :: rtElems vs

def rtFields : List (String × JValue) → List (String × JValue)
  | [] => []
  | (k, v) :: fs =>
    match v with
      | .undef => rtFields fs
      | .func => rtFields fs
      | w => (k, jsonRoundTrip w) :: rtFields fs

end

/-- A stack frame (section 3 of the data model): marker frames carry
marker true; try frames carry a catch index (field catch in the source,
written catchJ here); let frames carry a bindings object, or null for a
mask frame (field let in the source, written lett here, with some none
standing for the null bindings of a mask). -/
structure Frame where
  marker : Bool := false
  catchJ : Option Int := none
  lett : Option (Option (List (String × JValue))) := none

/-- The join record a branch activation carries (conductor.js line 116). -/
structure JoinInfo where
  barrierId : String
  position : Int
  count : Int

/-- The serialisable continuation part of the activation state, the
dollar-composer object of the source. -/
structure SState where
  state : Int := 0
  stack : List Frame := []
  session : String := ""
  redis : JValue := .undef
  join : Option JoinInfo := none

/-- The per-activation state P of the interpreter: P.s and P.params. -/
structure ActState where
  s : SState := {}
  params : JValue := JValue.undef

/-- The while loop of inspect (conductor.js lines 348-350), started with
the carried state already set to minus one. Each iteration stops at a
marker frame without popping it; otherwise it pops the top frame, computes
catch-or-else-minus-one (a zero catch is falsy in JavaScript and also
yields minus one), and breaks when that value is nonnegative. -/
def unwindLoop : Int → List Frame → Int × List Frame
  | st, [] => (st, [])
  | st, f :: rest =>
    if f.marker then (st, f :: rest)
    else
      let st2 : Int :=
        match f.catchJ with
        | some c => if c = 0 then -1 else c
        | none => -1
      if 0 ≤ st2 then (st2, rest) else unwindLoop st2 rest

/-- inspect (conductor.js lines 343-352): wrap params if not a dictionary;
if the wrapped params carries a defined error field, keep only the error
field, set the state to minus one and unwind the stack towards the nearest
catch frame above the nearest marker. -/
def inspect (p : ActState) : ActState :=
  let params := if isObject p.params then p.params else .obj [("value", p.params)]
  if errorDefined params then
    let result := unwindLoop (-1) p.s.stack
    { p with params := .obj [("error", getField params "error")],
             s := { p.s with state := result.1, stack := result.2 } }
  else
    { p with params := params }

/-- Unwinding as the specification words it (claims C4, I3, P5): pop frames
top-down, never popping a marker; stop at the first popped frame carrying a
catch index, making that index the new state; reach minus one when the
stack empties or a marker is on top before any catch frame was found. This
definition follows the words of the spec and is compared against the
unwindLoop translated from the source. -/
def specUnwind : List Frame → Int × List Frame
  | [] => (-1, [])
  | f :: rest =>
    if f.marker then (-1, f :: rest)
    else
      match f.catchJ with
      | some c => (c, rest)
      | none => specUnwind rest

/-- True when every catch index recorded in the frame is positive. The
conductor pushes catch frames only with index plus node.catch, which is at
least two, so the hypothesis holds for every frame the code creates. -/
def frameCatchPos (f : Frame) : Bool :=
  match f.catchJ with
  | some c => decide (0 < c)
  | none => true

/-- The view loop of run (conductor.js lines 357-369): walking the stack
top-down, a mask frame (let null) increments the skip counter, a let frame
is kept in the view when the counter is zero and otherwise consumes one
unit of the counter, and frames without a let field are ignored. -/
def viewAux : Nat → List Frame → List Frame
  | _, [] => []
  | n, f :: rest =>
    match f.lett with
    | some none => viewAux (n + 1) rest
    | some (some _) => if n = 0 then f :: viewAux 0 rest else viewAux (n - 1) rest
    | none => viewAux n rest

/-- The view run builds over the current stack. -/
def view (stack : List Frame) : List Frame :=
  viewAux 0 stack

def isLetFrame (f : Frame) : Bool :=
  match f.lett with
  | some (some _) => true
  | _ => false

/-- Remove the innermost (nearest the top) non-null let frame of a stack,
leaving every other frame in place. -/
def removeFirstLet : List Frame → List Frame
  | [] => []
  | f :: rest => if isLetFrame f then rest else f :: removeFirstLet rest

/-- The collapsed environment of run (conductor.js line 378): a right to
left reduce over the view merging the let objects with Object.assign, so a
frame nearer the top of the stack is merged later and shadows the farther
frames. -/
def collapseEnv (v : List Frame) : List (String × JValue) :=
  v.foldr
    (fun cur acc =>
      match cur.lett with
      | some (some m) => objAssign acc m
      | _ => acc)
    []

/-- The binding of a name the claim expects: the value supplied by the
frame nearest the top of the view that binds the name. -/
def firstBinding : List Frame → String → Option JValue
  | [], _ => none
  | f :: rest, k =>
    match f.lett with
    | some (some m) =>
      match jsLookup m k with
      | some v => some v
      | none => firstBinding rest k
    | _ => firstBinding rest k

/-- True when the bindings object of a let frame holds no duplicate keys,
as JavaScript objects do. -/
def frameKeysNodup (f : Frame) : Bool :=
  match f.lett with
  | some (some m) => decide ((m.map Prod.fst).Nodup)
  | _ => true

/-- A mask frame as the compiler and the let handler create it: a frame
whose let field is null. -/
def maskFrame : Frame :=
  { lett := some none }

/-- The params update of the function handler (conductor.js lines 251-254):
a function-typed result is replaced by an error object naming the AST node;
an undefined result preserves the prior params; the chosen value is deep
cloned by a JSON round trip. The handler then calls inspect and step. -/
def functionUpdate (parentPath : String) (p : ActState) (result : JValue) : ActState :=
  let result :=
    if isFunc result then
      JValue.obj [("error", .str ("Function combinator evaluated to a function type at AST node root"
        ++ parentPath))]
    else result
  let chosen :=
    match result with
    | .undef => p.params
    | w => w
  { p with params := jsonRoundTrip chosen }

/-- The function handler of the conductor (lines 245-258), after the body
has been evaluated to result: update params, then inspect. -/
def conductorFunction (parentPath : String) (p : ActState) (result : JValue) : ActState :=
  inspect (functionUpdate parentPath p result)

/-- JavaScript array assignment a at i gets v, on the models value arrays:
writing past the end extends the array, filling the holes with undefined
(holes read back as undefined). -/
def setAt : List JValue → Nat → JValue → List JValue
  | [], 0, v => [v]
  | [], n + 1, v => .undef :: setAt [] n v
  | _ :: xs, 0, v => v :: xs
  | x :: xs, n + 1, v => x :: setAt xs n v

/-- The result writes of a successful collect (conductor.js lines 325-326):
for each record with a position and a params read from the done list, write
the params into the aggregate value array at that position. -/
def collectWrites (init : List JValue) (records : List (Nat × JValue)) : List JValue :=
  records.foldl (fun acc r => setAt acc r.1 r.2) init

/-- The external redis store, as a map from keys to lists. The pushed
entries are kept as values rather than serialised strings; the code always
writes JSON.stringify of a record and reads it back with JSON.parse. -/
def Store : Type :=
  String → Option (List JValue)

def storeGet (st : Store) (k : String) : Option (List JValue) :=
  st k

def storeSet (st : Store) (k : String) (v : List JValue) : Store :=
  fun k2 => if k2 = k then some v else st k2

def storeDel (st : Store) (k : String) : Store :=
  fun k2 => if k2 = k then none else st k2

/-- The key of the live list of a barrier (conductor.js line 51). -/
def live (id : String) : String :=
  "composer/fork/" ++ id

/-- The key of the done list of a barrier (conductor.js line 52). -/
def done (id : String) : String :=
  "composer/join/" ++ id

/-- lpushx: prepend only when the key exists, returning the resulting list
length; zero and no change when the key is absent. -/
def lpushx (st : Store) (k : String) (v : JValue) : Store × Int :=
  match st k with
  | some l => (storeSet st k (v :: l), (l.length : Int) + 1)
  | none => (st, 0)

/-- rename: move the list stored at src to dst. Renaming a missing key is a
redis error; the code only renames a key it has just pushed to, so the
missing case is modelled as a no-op. -/
def renameKey (st : Store) (src dst : String) : Store :=
  match st src with
  | some l => storeSet (storeDel st src) dst l
  | none => st

/-- The terminal branch of step (conductor.js lines 393-404) when a join is
present: on a terminal state, push the record of position and params onto
the live list of the barrier with lpushx, rename live to done exactly when
the returned length exceeds the join count, and store the join marker
object in params. Returns none when the state is not terminal (step would
process a state instead). Without a join, the terminal branch leaves the
state untouched and the activation falls through to finish. -/
def stepTerminalJoin (fsmLen : Nat) (store : Store) (p : ActState) : Option (Store × ActState) :=
  if p.s.state < 0 ∨ (fsmLen : Int) ≤ p.s.state then
    match p.s.join with
    | some j =>
      let pushed := lpushx store (live j.barrierId)
        (.obj [("position", .num j.position), ("params", p.params)])
      let store2 :=
        if j.count < pushed.2 then renameKey pushed.1 (live j.barrierId) (done j.barrierId)
        else pushed.1
      some (store2,
        { p with params := .obj [("method", .str "join"), ("sessionId", .str p.s.session),
                                 ("barrierId", .str j.barrierId), ("position", .num j.position)] })
    | none => some (store, p)
  else none

/-- finish (conductor.js lines 313-315): an errored params is the final
result as is; otherwise the final result wraps params. -/
def finish (p : ActState) : JValue :=
  if jsTruthy (getField p.params "error") then p.params
  else .obj [("params", p.params)]

/-- The exit handler (conductor.js lines 236-239): pop one frame; popping
an empty stack rejects with an internal error. -/
def conductorExit (p : ActState) : Except String ActState :=
  if p.s.stack.length = 0 then Except.error "pop from an empty stack"
  else Except.ok { p with s := { p.s with stack := p.s.stack.tail } }

/-- The catch of the entrypoint (conductor.js lines 440-443) applied to an
internal error carried as a string: params becomes an error object with the
message prefixed by Internal error. An empty message (never produced by the
code) would lose the colon. -/
def entryCatch (p : ActState) (message : String) : ActState :=
  { p with params := .obj [("error", .str
      (if message = "" then "Internal error" else "Internal error: " ++ message))] }

/-- The possible outcomes of fork before any branch work happens. -/
inductive ForkOutcome where
  | immediate : ForkOutcome
  | configError : ForkOutcome
  | proceed : ForkOutcome
deriving DecidableEq

/-- The redis configuration test of fork (conductor.js line 99): the redis
value has typeof object, its uri has typeof string, and its ca has typeof
string or undefined. -/
def redisConfigValid (redis : JValue) : Bool :=
  jsTypeof redis == "object" && jsTypeof (getField redis "uri") == "string" &&
    (jsTypeof (getField redis "ca") == "string" || jsTypeof (getField redis "ca") == "undefined")

/-- The synchronous prefix of fork (conductor.js lines 94-103): set the
return state and the empty aggregate value, return at once when the branch
array is empty, otherwise either fail on an invalid redis configuration or
proceed to the barrier creation and the spawns. The saved params and the
per-branch constructor only matter on the proceed path, which hands over to
the external store and is represented by the proceed outcome. -/
def fork {α : Type} (p : ActState) (index ret : Int) (array : List α) :
    ActState × ForkOutcome :=
  let p1 := { p with s := { p.s with state := index + ret },
                     params := JValue.obj [("value", .arr [])] }
  if array.length = 0 then (p1, ForkOutcome.immediate)
  else if redisConfigValid p1.s.redis = false then
    ({ p1 with params := .obj [("error",
        .str "Parallel combinator requires a properly configured redis instance")] },
      ForkOutcome.configError)
  else (p1, ForkOutcome.proceed)

/-- A compiled FSM state record (section 3). Optional fields mirror the
optional properties of the source records; then, else, catch, return and
let are keywords here and are written thenJ, elseJ, catchJ, returnJ, letJ. -/
structure StateRec where
  parent : String := ""
  type : String := ""
  name : Option String := none
  exec : Option String := none
  next : Option Int := none
  thenJ : Option Int := none
  elseJ : Option Int := none
  catchJ : Option Int := none
  returnJ : Option Int := none
  letJ : Option (Option (List (String × JValue))) := none
  tasks : Option (List Int) := none
  path : Option String := none

/-- The parallel handler (conductor.js lines 287-293): fork over the task
offsets of the node. The compiler always sets return and tasks on a
parallel head, so the defaults are never read on compiled programs. -/
def conductorParallel (p : ActState) (index : Int) (node : StateRec) :
    ActState × ForkOutcome :=
  fork p index (node.returnJ.getD 0) (node.tasks.getD [])

/-- The branch array of the map handler: params.value or else the empty
array. A non-array truthy value would fail later inside the JavaScript
fork; no claim exercises that case and it collapses to the empty array
here. -/
def mapArray (params : JValue) : List JValue :=
  match getField params "value" with
  | .arr xs => xs
  | _ => []

/-- The map handler (conductor.js lines 295-301): fork over the incoming
value array. -/
def conductorMap (p : ActState) (index : Int) (node : StateRec) :
    ActState × ForkOutcome :=
  fork p index (node.returnJ.getD 0) (mapArray p.params)

/-- The composition AST (section 3). Every node carries its optional
tracing path first; the child fields follow the source. The combinators
whose names are keywords here carry a C suffix. -/
inductive AST where
  | sequence (path : Option String) (components : List AST)
  | action (path : Option String) (name : String)
  | async (path : Option String) (components : List AST)
  | function (path : Option String) (exec : String)
  | finallyC (path : Option String) (body finalizer : AST)
  | letC (path : Option String) (declarations : List (String × JValue)) (components : List AST)
  | mask (path : Option String) (components : List AST)
  | tryC (path : Option String) (body handler : AST)
  | if_nosave (path : Option String) (test consequent alternate : AST)
  | while_nosave (path : Option String) (test body : AST)
  | dowhile_nosave (path : Option String) (body test : AST)
  | parallel (path : Option String) (components : List AST)
  | map (path : Option String) (components : List AST)
  | dynamic (path : Option String)

def AST.path : AST → Option String
  | .sequence p _ => p
  | .action p _ => p
  | .async p _ => p
  | .function p _ => p
  | .finallyC p _ _ => p
  | .letC p _ _ => p
  | .mask p _ => p
  | .tryC p _ _ => p
  | .if_nosave p _ _ _ => p
  | .while_nosave p _ _ => p
  | .dowhile_nosave p _ _ => p
  | .parallel p _ => p
  | .map p _ => p
  | .dynamic p => p

/-- Replace the element at one index of a list, used for the in-place
updates the compiler performs on freshly built state lists. -/
def modifyAt {α : Type} : List α → Nat → (α → α) → List α
  | [], _, _ => []
  | x :: xs, 0, f => f x :: xs
  | x :: xs, n + 1, f => x :: modifyAt xs n f

/-- The parent passed to a compiler rule: node.path or else the enclosing
parent (conductor.js line 214); an empty path string is falsy. -/
def effParent (path : Option String) (parent : String) : String :=
  match path with
  | some p => if p = "" then parent else p
  | none => parent

/-- Stamp the path of a node onto the head state of its compiled list
(conductor.js line 215). -/
def stampPath (path : Option String) (fsm : List StateRec) : List StateRec :=
  match path with
  | some p => modifyAt fsm 0 (fun s => { s with path := some p })
  | none => fsm

/-- The task entry offsets of a parallel head (conductor.js line 197): the
running sums of the task lengths starting at one, one entry per task. -/
def taskOffsets : Int → List (List StateRec) → List Int
  | _, [] => []
  | k, t :: ts => k :: taskOffsets (k + t.length) ts

mutual

/-- compile with a parent and one node (conductor.js lines 211-217):
dispatch to the rule of the node type under the effective parent, then
stamp the path of the node onto the head state. -/
def compileTop (parent : String) (node : AST) : List StateRec :=
  stampPath node.path (compileNode (effParent node.path parent) node)

/-- The per-combinator compiler rules (conductor.js lines 131-209),
translated rule by rule; the in-place offset assignments of the source
become modifyAt updates of the freshly built lists. -/
def compileNode (parent : String) : AST → List StateRec
  | .sequence _ components =>
      { parent, type := "pass" } :: compileMany parent components
  | .action _ name =>
      [{ parent, type := "action", name := some name }]
  | .async _ components =>
      let body := compileMany parent components
      { parent, type := "async", returnJ := some ((body.length : Int) + 2) } ::
        body ++ [{ parent, type := "stop" }, { parent, type := "pass" }]
  | .function _ exec =>
      [{ parent, type := "function", exec := some exec }]
  | .finallyC _ body finalizer =>
      let finalizerF := compileTop parent finalizer
      let fsm := { parent, type := "try" } :: compileTop parent body ++
        ({ parent, type := "exit" } : StateRec) :: finalizerF
      modifyAt fsm 0 (fun s => { s with catchJ := some ((fsm.length : Int) - finalizerF.length) })
  | .letC _ declarations components =>
      { parent, type := "let", letJ := some (some declarations) } ::
        compileMany parent components ++ [{ parent, type := "exit" }]
  | .mask _ components =>
      { parent, type := "let", letJ := some none } ::
        compileMany parent components ++ [{ parent, type := "exit" }]
  | .tryC _ body handler =>
      let handlerF := compileTop parent handler ++ [{ parent, type := "pass" }]
      let fsm := { parent, type := "try" } :: compileTop parent body ++
        ({ parent, type := "exit" } : StateRec) :: handlerF
      let fsm2 := modifyAt fsm 0
        (fun s => { s with catchJ := some ((fsm.length : Int) - handlerF.length) })
      modifyAt fsm2 (fsm.length - handlerF.length - 1)
        (fun s => { s with next := some (handlerF.length : Int) })
  | .if_nosave _ test consequent alternate =>
      let consequentF := compileTop parent consequent
      let alternateF := compileTop parent alternate ++ [{ parent, type := "pass" }]
      let fsm := { parent, type := "pass" } :: compileTop parent test ++
        ({ parent, type := "choice", thenJ := some 1,
           elseJ := some ((consequentF.length : Int) + 1) } : StateRec) :: consequentF ++ alternateF
      modifyAt fsm (fsm.length - alternateF.length - 1)
        (fun s => { s with next := some (alternateF.length : Int) })
  | .while_nosave _ test body =>
      let bodyF := compileTop parent body
      let fsm := { parent, type := "pass" } :: compileTop parent test ++
        ({ parent, type := "choice", thenJ := some 1,
           elseJ := some ((bodyF.length : Int) + 1) } : StateRec) :: bodyF ++
        [{ parent, type := "pass" }]
      modifyAt fsm (fsm.length - 2) (fun s => { s with next := some (2 - (fsm.length : Int)) })
  | .dowhile_nosave _ body test =>
      let fsm := { parent, type := "pass" } :: compileTop parent body ++
        compileTop parent test ++
        [{ parent, type := "choice", elseJ := some 1 }, { parent, type := "pass" }]
      modifyAt fsm (fsm.length - 2) (fun s => { s with thenJ := some (2 - (fsm.length : Int)) })
  | .parallel _ components =>
      let tasks := compileTasks parent components
      let fsm := { parent, type := "parallel" } ::
        tasks.foldl (fun acc cur => acc ++ cur) [] ++ [{ parent, type := "pass" }]
      modifyAt fsm 0 (fun s => { s with returnJ := some ((fsm.length : Int) - 1),
                                        tasks := some (taskOffsets 1 tasks) })
  | .map _ components =>
      let tasks := compileMany parent components
      { parent, type := "map", returnJ := some ((tasks.length : Int) + 2) } ::
        tasks ++ [{ parent, type := "stop" }, { parent, type := "pass" }]
  | .dynamic _ =>
      [{ parent, type := "dynamic" }]

/-- compile with a parent and a spread of nodes: no node yields the single
empty state, otherwise the compiled nodes are concatenated. -/
def compileMany (parent : String) : List AST → List StateRec
  | [] => [{ parent, type := "empty" }]
  | n :: ns => compileTop parent n ++ compileCat parent ns

def compileCat (parent : String) : List AST → List StateRec
  | [] => []
  | n :: ns => compileTop parent n ++ compileCat parent ns

/-- The per-task compilation of parallel: each component is compiled and
terminated with a stop state. -/
def compileTasks (parent : String) : List AST → List (List StateRec)
  | [] => []
  | n :: ns => (compileTop parent n ++ [{ parent, type := "stop" }]) :: compileTasks parent ns

end

/-- A concrete store used by witness statements: a live barrier list
holding only the sentinel. -/
def joinSampleStore : Store :=
  fun k => if k = live "bb" then some [JValue.num 42] else none

/-- A concrete terminal branch activation state used by witness
statements: position one of a two-branch barrier. -/
def joinSampleState : ActState :=
  { s := { state := -1, session := "s2", join := some ⟨"bb", 1, 2⟩ },
    params := .obj [] }

/-! Helper lemmas about the list operations of the embedding. -/

theorem length_modifyAt {α : Type} (l : List α) (i : Nat) (f : α → α) :
    (modifyAt l i f).length = l.length := by
  induction l generalizing i with
  | nil => rfl
  | cons x xs ih => cases i <;> simp [modifyAt, ih]

theorem getElem?_modifyAt_self {α : Type} (l : List α) (i : Nat) (f : α → α) :
    (modifyAt l i f)[i]? = (l[i]?).map f := by
  induction l generalizing i with
  | nil => simp [modifyAt]
  | cons x xs ih => cases i <;> simp [modifyAt, ih]

theorem getElem?_modifyAt_ne {α : Type} (l : List α) (i j : Nat) (f : α → α) (h : i ≠ j) :
    (modifyAt l i f)[j]? = l[j]? := by
  induction l generalizing i j with
  | nil => simp [modifyAt]
  | cons x xs ih =>
    cases i with
    | zero =>
      cases j with
      | zero => exact absurd rfl h
      | succ m => simp [modifyAt]
    | succ n =>
      cases j with
      | zero => simp [modifyAt]
      | succ m =>
        simp only [modifyAt, List.getElem?_cons_succ]
        exact ih n m (by omega)

theorem length_stampPath (path : Option String) (l : List StateRec) :
    (stampPath path l).length = l.length := by
  cases path <;> simp [stampPath, length_modifyAt]

theorem getElem?_stampPath_catch (path : Option String) (l : List StateRec) :
    ((stampPath path l)[0]?).map StateRec.catchJ = (l[0]?).map StateRec.catchJ := by
  cases path with
  | none => rfl
  | some p => cases l <;> simp [stampPath, modifyAt]

theorem getElem?_stampPath_pos (path : Option String) (l : List StateRec) (j : Nat)
    (h : 0 < j) : (stampPath path l)[j]? = l[j]? := by
  cases path with
  | none => rfl
  | some p => exact getElem?_modifyAt_ne l 0 j _ (by omega)

theorem compileNode_length_pos (parent : String) (a : AST) :
    0 < (compileNode parent a).length := by
  cases a <;> simp [compileNode, length_modifyAt]

theorem compileTop_length_pos (parent : String) (node : AST) :
    0 < (compileTop parent node).length := by
  simp only [compileTop, length_stampPath]
  exact compileNode_length_pos _ _

theorem head_modifyAt_modifyAt_zero {α : Type} (l : List α) (k : Nat) (g h : α → α)
    (hk : k ≠ 0) : (modifyAt (modifyAt l 0 g) k h)[0]? = (l[0]?).map g := by
  rw [getElem?_modifyAt_ne _ k 0 _ hk, getElem?_modifyAt_self]

/-! Claim C1. The claim states that the head try state of a compiled try
or finally node carries a relative catch offset of the length of the
compiled body plus one. The code sets the catch to the list length minus
the handler length, which is the length of the compiled body plus two (the
handler begins after the try state, the body, and the exit state). -/

/-- Claim C1 counterexample: for the try node with an action body and an
action handler the head catch offset is three, not the claimed length of
the compiled body plus one, which is two. -/
theorem try_catch_offset_counterexample :
    ((compileTop "" (AST.tryC none (AST.action none "a") (AST.action none "b")))[0]?).map
        StateRec.catchJ ≠
      some (some (((compileTop "" (AST.action none "a")).length : Int) + 1)) := by
  simp [compileTop, compileNode, compileMany, compileCat, stampPath, effParent, modifyAt,
    AST.path]

/-- Claim C1 as amended: for every try node and every finally node, the
compiled FSM begins with a try state whose relative catch offset equals the
length of the compiled body plus two, pointing at the first handler or
finalizer state, just past the try state, the compiled body and the exit
state. -/
theorem try_finally_catch_offset (parent : String) (path : Option String) (body other : AST) :
    ((compileTop parent (AST.tryC path body other))[0]?).map StateRec.catchJ =
      some (some (((compileTop (effParent path parent) body).length : Int) + 2)) ∧
    ((compileTop parent (AST.finallyC path body other))[0]?).map StateRec.catchJ =
      some (some (((compileTop (effParent path parent) body).length : Int) + 2)) := by
  constructor
  · rw [compileTop, getElem?_stampPath_catch, AST.path]
    simp only [compileNode]
    rw [head_modifyAt_modifyAt_zero _ _ _ _ (by
      simp only [List.length_cons, List.length_append]
      omega)]
    rw [List.getElem?_append]
    simp only [List.length_cons, List.length_append, List.length_singleton, Nat.zero_lt_succ,
      if_pos, List.getElem?_cons_zero, Option.map_some', Option.some.injEq]
    push_cast
    ring
  · rw [compileTop, getElem?_stampPath_catch, AST.path]
    simp only [compileNode]
    rw [getElem?_modifyAt_self, List.getElem?_append]
    simp only [List.length_cons, List.length_append, List.length_singleton, Nat.zero_lt_succ,
      if_pos, List.getElem?_cons_zero, Option.map_some', Option.some.injEq]
    push_cast
    ring

theorem getElem?_stampPath_type (path : Option String) (l : List StateRec) :
    ((stampPath path l)[0]?).map StateRec.type = (l[0]?).map StateRec.type := by
  cases path with
  | none => rfl
  | some p => cases l <;> simp [stampPath, modifyAt]

theorem getElem?_append3 {α : Type} (A Bc C : List α) (j : Nat) :
    ((A ++ Bc) ++ C)[j]? =
      if j < A.length then A[j]?
      else if j - A.length < Bc.length then Bc[j - A.length]?
      else C[j - A.length - Bc.length]? := by
  rw [List.getElem?_append, List.getElem?_append, List.length_append]
  by_cases h1 : j < A.length
  · rw [if_pos (by omega : j < A.length + Bc.length), if_pos h1, if_pos h1]
  · by_cases h2 : j - A.length < Bc.length
    · rw [if_pos (by omega), if_neg h1, if_neg h1, if_pos h2]
    · rw [if_neg (by omega), if_neg h1, if_neg h2]
      congr 1
      omega

/-! Claim C2. The claim states that the compiled while node ends with a
pass state carrying the backward jump next equal to minus the compiled
length minus two. The code assigns that offset to the state at index
length minus two, the second to last state, which is the final state of the
compiled body; the trailing pass state carries no next override. -/

/-- Claim C2 counterexample: compiling a while node with an action test
and an action body yields five states, and the trailing pass state, the
last of the list, does not carry the backward jump next of two minus five
the claim assigns to it (its next field is undefined). -/
theorem while_trailing_pass_counterexample :
    (compileTop "" (AST.while_nosave none (AST.action none "t") (AST.action none "b"))).length
        = 5 ∧
      ((compileTop "" (AST.while_nosave none (AST.action none "t")
          (AST.action none "b")))[4]?).map StateRec.next ≠ some (some (2 - 5 : Int)) := by
  constructor
  · simp [compileTop, compileNode, stampPath, effParent, modifyAt, AST.path]
  · simp [compileTop, compileNode, stampPath, effParent, modifyAt, AST.path]

/-- Claim C2 as amended: for every while node, the compiled list is the
leading pass, then the compiled test, then the choice state with then one
and else the compiled body length plus one, then the compiled body, then a
trailing pass; the backward jump next equal to two minus the compiled
length sits on the second to last state, the final state of the compiled
body, jumping back to the leading pass in front of the test, while the
trailing pass state carries no next override. -/
theorem while_nosave_compile (parent : String) (path : Option String) (test body : AST) :
    (compileTop parent (AST.while_nosave path test body)).length =
        (compileTop (effParent path parent) test).length +
        (compileTop (effParent path parent) body).length + 3 ∧
      ((compileTop parent (AST.while_nosave path test body))[0]?).map StateRec.type =
        some "pass" ∧
      (∀ i, i < (compileTop (effParent path parent) test).length →
        (compileTop parent (AST.while_nosave path test body))[i + 1]? =
          (compileTop (effParent path parent) test)[i]?) ∧
      ((compileTop parent
            (AST.while_nosave path test body))[(compileTop (effParent path parent) test).length
            + 1]?).map (fun s => (s.type, s.thenJ, s.elseJ)) =
        some ("choice", some 1,
          some (((compileTop (effParent path parent) body).length : Int) + 1)) ∧
      (∀ i, i + 1 < (compileTop (effParent path parent) body).length →
        (compileTop parent
            (AST.while_nosave path test body))[(compileTop (effParent path parent) test).length
            + 2 + i]? = (compileTop (effParent path parent) body)[i]?) ∧
      (compileTop parent
          (AST.while_nosave path test body))[(compileTop parent
            (AST.while_nosave path test body)).length - 2]? =
        ((compileTop (effParent path parent)
            body)[(compileTop (effParent path parent) body).length - 1]?).map
          (fun s =>
            { s with
              next := some (2 - ((compileTop parent (AST.while_nosave path test body)).length : Int)) }) ∧
      ((compileTop parent
          (AST.while_nosave path test body))[(compileTop parent
            (AST.while_nosave path test body)).length - 1]?).map (fun s => (s.type, s.next)) =
        some ("pass", none) := by
  set pr := effParent path parent with hpr
  set t := compileTop pr test with ht
  set b := compileTop pr body with hb
  set raw := ({ parent := pr, type := "pass" } : StateRec) :: t ++
      ({ parent := pr, type := "choice", thenJ := some 1,
         elseJ := some ((b.length : Int) + 1) } : StateRec) :: b ++
      [({ parent := pr, type := "pass" } : StateRec)] with hraw
  have hw : compileTop parent (AST.while_nosave path test body) =
      stampPath path (modifyAt raw (raw.length - 2)
        (fun s => { s with next := some (2 - (raw.length : Int)) })) := by
    rw [compileTop]
    simp only [AST.path, compileNode]
  have hBpos : 0 < b.length := by
    rw [hb]
    exact compileTop_length_pos _ _
  have hlenraw : raw.length = t.length + b.length + 3 := by
    rw [hraw]
    simp only [List.length_append, List.length_cons, List.length_singleton, List.length_nil]
    omega
  have hlenw : (compileTop parent (AST.while_nosave path test body)).length =
      t.length + b.length + 3 := by
    rw [hw, length_stampPath, length_modifyAt, hlenraw]
  refine ⟨hlenw, ?_, ?_, ?_, ?_, ?_, ?_⟩
  · rw [hw]
    rw [getElem?_stampPath_type]
    rw [getElem?_modifyAt_ne raw (raw.length - 2) 0 _ (by omega)]
    rw [hraw, getElem?_append3]
    simp
  · intro i hi
    rw [hw]
    rw [getElem?_stampPath_pos path _ (i + 1) (by omega)]
    rw [getElem?_modifyAt_ne raw (raw.length - 2) (i + 1) _ (by omega)]
    rw [hraw, getElem?_append3]
    rw [if_pos (by simp only [List.length_append, List.length_cons, List.length_singleton, List.length_nil]; omega)]
    simp only [List.getElem?_cons_succ]
  · rw [hw]
    rw [getElem?_stampPath_pos path _ (t.length + 1) (by omega)]
    rw [getElem?_modifyAt_ne raw (raw.length - 2) (t.length + 1) _ (by omega)]
    rw [hraw, getElem?_append3]
    rw [if_neg (by simp only [List.length_append, List.length_cons, List.length_singleton, List.length_nil]; omega)]
    rw [if_pos (by simp only [List.length_append, List.length_cons, List.length_singleton, List.length_nil]; omega)]
    simp
  · intro i hi
    rw [hw]
    rw [getElem?_stampPath_pos path _ (t.length + 2 + i) (by omega)]
    rw [getElem?_modifyAt_ne raw (raw.length - 2) (t.length + 2 + i) _ (by omega)]
    rw [hraw, getElem?_append3]
    rw [if_neg (by simp only [List.length_append, List.length_cons, List.length_singleton, List.length_nil]; omega)]
    rw [if_pos (by simp only [List.length_append, List.length_cons, List.length_singleton, List.length_nil]; omega)]
    have hidx : t.length + 2 + i - (({ parent := pr, type := "pass" } : StateRec) :: t).length =
        i + 1 := by
      simp only [List.length_append, List.length_cons, List.length_singleton, List.length_nil]
      omega
    rw [hidx, List.getElem?_cons_succ]
  · rw [hw]
    rw [length_stampPath, length_modifyAt]
    rw [getElem?_stampPath_pos path _ (raw.length - 2) (by omega)]
    rw [getElem?_modifyAt_self]
    rw [hraw, getElem?_append3]
    rw [if_neg (by simp only [List.length_append, List.length_cons, List.length_singleton, List.length_nil]; omega)]
    rw [if_pos (by simp only [List.length_append, List.length_cons, List.length_singleton, List.length_nil]; omega)]
    have hidx : raw.length - 2 - (({ parent := pr, type := "pass" } : StateRec) :: t).length =
        (b.length - 1) + 1 := by
      rw [hlenraw]
      simp only [List.length_append, List.length_cons, List.length_singleton, List.length_nil]
      omega
    rw [hraw] at hidx
    rw [hidx, List.getElem?_cons_succ]
  · rw [hw]
    rw [length_stampPath, length_modifyAt]
    rw [getElem?_stampPath_pos path _ (raw.length - 1) (by omega)]
    rw [getElem?_modifyAt_ne raw (raw.length - 2) (raw.length - 1) _ (by omega)]
    rw [hraw, getElem?_append3]
    rw [if_neg (by simp only [List.length_append, List.length_cons, List.length_singleton, List.length_nil]; omega)]
    rw [if_neg (by simp only [List.length_append, List.length_cons, List.length_singleton, List.length_nil]; omega)]
    have hidx : (({ parent := pr, type := "pass" } : StateRec) :: t ++
        ({ parent := pr, type := "choice", thenJ := some 1,
           elseJ := some ((b.length : Int) + 1) } : StateRec) :: b ++
        [({ parent := pr, type := "pass" } : StateRec)]).length - 1 -
        (({ parent := pr, type := "pass" } : StateRec) :: t).length -
        (({ parent := pr, type := "choice", thenJ := some 1,
            elseJ := some ((b.length : Int) + 1) } : StateRec) :: b).length = 0 := by
      simp only [List.length_append, List.length_cons, List.length_singleton, List.length_nil]
      omega
    rw [hidx]
    rfl

/-! Claims C3 and C4: the inspect invariants. -/

theorem errorDefined_isObject (v : JValue) (h : errorDefined v = true) :
    isObject v = true := by
  cases v <;> simp_all [errorDefined, getField, isObject]

theorem wrap_no_error (v : JValue) : errorDefined (JValue.obj [("value", v)]) = false := by
  simp [errorDefined, getField, jsLookup]

/-- Claim C3: after inspect, params is an object, neither null nor an
array; and if params carried a defined error field on entry, on exit the
params is exactly the object holding only that error value. -/
theorem inspect_params_object (p : ActState) :
    isObject (inspect p).params = true ∧
    (errorDefined p.params = true →
      (inspect p).params = .obj [("error", getField p.params "error")]) := by
  constructor
  · rw [inspect]
    cases hobj : isObject p.params with
    | true =>
      simp only [hobj]
      by_cases herr : errorDefined p.params = true
      · simp [herr, isObject]
      · simp only [if_true]
        rw [if_neg (by simp [herr])]
        exact hobj
    | false =>
      simp only [hobj]
      simp [wrap_no_error, isObject]
  · intro herr
    have hobj : isObject p.params = true := errorDefined_isObject p.params herr
    rw [inspect]
    simp [hobj, herr]

/-- Claim C3 witness at a concrete errored params object. -/
theorem inspect_params_object_witness :
    errorDefined (JValue.obj [("error", .str "boom"), ("x", .num 1)]) = true ∧
    (inspect { s := {}, params := .obj [("error", .str "boom"), ("x", .num 1)] }).params =
      .obj [("error", .str "boom")] :=
  ⟨rfl, (inspect_params_object _).2 rfl⟩

theorem unwindLoop_eq_specUnwind (stk : List Frame)
    (hpos : stk.all frameCatchPos = true) :
    unwindLoop (-1) stk = specUnwind stk := by
  induction stk with
  | nil => rfl
  | cons f rest ih =>
    rw [List.all_cons, Bool.and_eq_true] at hpos
    rw [unwindLoop, specUnwind]
    by_cases hm : f.marker
    · simp [hm]
    · cases hc : f.catchJ with
      | none =>
        simp only [hm, Bool.false_eq_true, if_false, hc]
        rw [if_neg (by omega)]
        exact ih hpos.2
      | some c =>
        have hcpos : 0 < c := by
          have hf := hpos.1
          rw [frameCatchPos, hc] at hf
          exact of_decide_eq_true hf
        simp only [hm, Bool.false_eq_true, if_false, hc]
        rw [if_neg (by omega : ¬c = 0), if_pos (by omega : (0 : Int) ≤ c)]

/-- Claim C4: on an errored params, inspect pops frames top-down, stopping
at the first frame carrying a catch index and making that index the new
state; it never pops a marker frame nor anything below it; with no catch
frame above the nearest marker, or an emptied stack, the state ends at
minus one. Stated as a refinement of the unwinding the specification
describes; the hypothesis that recorded catch indices are positive holds
for every frame the conductor pushes, since a pushed catch is the state
index plus the node catch offset, at least two. -/
theorem inspect_unwind_spec (p : ActState)
    (herr : errorDefined p.params = true)
    (hpos : p.s.stack.all frameCatchPos = true) :
    (inspect p).s.state = (specUnwind p.s.stack).1 ∧
    (inspect p).s.stack = (specUnwind p.s.stack).2 := by
  have hobj : isObject p.params = true := errorDefined_isObject p.params herr
  rw [inspect]
  simp [hobj, herr, unwindLoop_eq_specUnwind p.s.stack hpos]

/-- Claim C4 witness: a catch frame above a marker is found, the marker and
the frames below it stay. -/
theorem inspect_unwind_spec_witness :
    errorDefined (JValue.obj [("error", .str "e")]) = true ∧
    ([({ catchJ := some 5 } : Frame), ({ marker := true } : Frame),
        ({ catchJ := some 9 } : Frame)].all frameCatchPos = true) ∧
    ((inspect { s := { stack := [{ catchJ := some 5 }, { marker := true },
          { catchJ := some 9 }] }, params := .obj [("error", .str "e")] }).s.state =
        (specUnwind [({ catchJ := some 5 } : Frame), ({ marker := true } : Frame),
          ({ catchJ := some 9 } : Frame)]).1 ∧
      (inspect { s := { stack := [{ catchJ := some 5 }, { marker := true },
          { catchJ := some 9 }] }, params := .obj [("error", .str "e")] }).s.stack =
        (specUnwind [({ catchJ := some 5 } : Frame), ({ marker := true } : Frame),
          ({ catchJ := some 9 } : Frame)]).2) :=
  ⟨rfl, rfl, inspect_unwind_spec _ rfl rfl⟩

/-! Claim C5: the collect result writes. -/

theorem collectWrites_cons (acc : List JValue) (r : Nat × JValue)
    (rest : List (Nat × JValue)) :
    collectWrites acc (r :: rest) = collectWrites (setAt acc r.1 r.2) rest := rfl

theorem getElem?_setAt_self (l : List JValue) (i : Nat) (v : JValue) :
    (setAt l i v)[i]? = some v := by
  induction i generalizing l with
  | zero => cases l <;> simp [setAt]
  | succ n ih => cases l <;> simp [setAt, ih]

theorem getElem?_setAt_ne (l : List JValue) (i j : Nat) (v w : JValue) (hne : i ≠ j)
    (h : l[j]? = some w) : (setAt l i v)[j]? = some w := by
  induction i generalizing l j with
  | zero =>
    cases l with
    | nil => simp at h
    | cons x xs =>
      cases j with
      | zero => exact absurd rfl hne
      | succ m => simpa [setAt] using h
  | succ n ih =>
    cases l with
    | nil => simp at h
    | cons x xs =>
      cases j with
      | zero => simpa [setAt] using h
      | succ m =>
        simp only [setAt, List.getElem?_cons_succ] at h ⊢
        exact ih xs m (by omega) h

theorem setAt_comm (l : List JValue) (i j : Nat) (v w : JValue) (hij : i ≠ j) :
    setAt (setAt l i v) j w = setAt (setAt l j w) i v := by
  induction i generalizing j l with
  | zero =>
    cases j with
    | zero => exact absurd rfl hij
    | succ m => cases l <;> simp [setAt]
  | succ n ih =>
    cases j with
    | zero => cases l <;> simp [setAt]
    | succ m =>
      cases l with
      | nil =>
        simp only [setAt, List.cons.injEq, true_and]
        exact ih [] m (by omega)
      | cons x xs =>
        simp only [setAt, List.cons.injEq, true_and]
        exact ih xs m (by omega)

theorem collectWrites_preserve (records : List (Nat × JValue)) (acc : List JValue)
    (pos : Nat) (v : JValue) (hnot : pos ∉ records.map Prod.fst)
    (hacc : acc[pos]? = some v) : (collectWrites acc records)[pos]? = some v := by
  induction records generalizing acc with
  | nil => exact hacc
  | cons r rest ih =>
    rw [List.map_cons, List.mem_cons] at hnot
    push_neg at hnot
    rw [collectWrites_cons]
    exact ih (setAt acc r.1 r.2) (hnot.2)
      (getElem?_setAt_ne acc r.1 pos r.2 v (fun h => hnot.1 h.symm) hacc)

theorem collectWrites_getElem (records : List (Nat × JValue)) (init : List JValue)
    (hnodup : (records.map Prod.fst).Nodup) :
    ∀ r ∈ records, (collectWrites init records)[r.1]? = some r.2 := by
  induction records generalizing init with
  | nil =>
    intro r h
    simp at h
  | cons r0 rest ih =>
    rw [List.map_cons, List.nodup_cons] at hnodup
    intro r hmem
    rw [collectWrites_cons]
    rcases List.mem_cons.mp hmem with heq | hmem2
    · subst heq
      exact collectWrites_preserve rest _ _ _ hnodup.1 (getElem?_setAt_self init r.1 r.2)
    · exact ih (setAt init r0.1 r0.2) hnodup.2 r hmem2

theorem collectWrites_perm (records records2 : List (Nat × JValue)) (init : List JValue)
    (hnodup : (records.map Prod.fst).Nodup) (hperm : records.Perm records2) :
    collectWrites init records = collectWrites init records2 := by
  refine hperm.foldl_eq' ?_ init
  intro x hx y hy z
  rcases eq_or_ne x y with rfl | hxy
  · rfl
  · have hfst : x.1 ≠ y.1 :=
      fun h => hxy (List.inj_on_of_nodup_map hnodup hx hy h)
    exact setAt_comm z x.1 y.1 x.2 y.2 hfst

/-- Claim C5: on a successful collect, each record read from the done list
writes its params into the aggregate value array at its position, so with
the pairwise distinct positions assigned at spawn time the aggregate is
ordered by branch position, and it is invariant under any permutation of
the record list, hence independent of completion order. -/
theorem collect_order_invariance (records : List (Nat × JValue)) (init : List JValue)
    (hnodup : (records.map Prod.fst).Nodup) :
    (∀ r ∈ records, (collectWrites init records)[r.1]? = some r.2) ∧
    (∀ records2, records.Perm records2 →
      collectWrites init records = collectWrites init records2) :=
  ⟨collectWrites_getElem records init hnodup,
   fun records2 hperm => collectWrites_perm records records2 init hnodup hperm⟩

/-- Claim C5 witness: two records arriving in reverse completion order. -/
theorem collect_order_invariance_witness :
    ([(1, JValue.num 2), (0, JValue.num 1)].map Prod.fst).Nodup ∧
    ((∀ r ∈ [(1, JValue.num 2), (0, JValue.num 1)],
        (collectWrites [] [(1, JValue.num 2), (0, JValue.num 1)])[r.1]? = some r.2) ∧
      (∀ records2, [(1, JValue.num 2), (0, JValue.num 1)].Perm records2 →
        collectWrites [] [(1, JValue.num 2), (0, JValue.num 1)] =
          collectWrites [] records2)) :=
  ⟨by decide, collect_order_invariance _ _ (by decide)⟩

/-! Claim C6: branch termination under a join. -/

theorem live_ne_done (id : String) : live id ≠ done id := by
  intro h
  have h2 : (live id).data = (done id).data := by rw [h]
  rw [live, done] at h2
  simp [String.data_append] at h2

/-- Claim C6 counterexample: at a terminal state with a join over a live
barrier list, the activation result handed to the platform is the finish
wrapping, an object with a single params field holding the join marker, not
the bare join marker object the claim describes. -/
theorem join_return_shape_counterexample :
    (stepTerminalJoin 5 (fun k => if k = live "b" then some [JValue.num 42] else none)
        { s := { state := -1, session := "sess", join := some ⟨"b", 0, 1⟩ },
          params := .obj [] }).map (fun r => finish r.2) =
      some (.obj [("params", .obj [("method", .str "join"), ("sessionId", .str "sess"),
        ("barrierId", .str "b"), ("position", .num 0)])]) ∧
    (JValue.obj [("params", .obj [("method", .str "join"), ("sessionId", .str "sess"),
        ("barrierId", .str "b"), ("position", .num 0)])]) ≠
      .obj [("method", .str "join"), ("sessionId", .str "sess"),
        ("barrierId", .str "b"), ("position", .num 0)] := by
  constructor
  · rfl
  · simp

/-- Claim C6 as amended: at a terminal state with a join present, the
record of position and params is pushed onto the live list of the barrier
only if that key exists, the live list is renamed to the done list exactly
when the returned length exceeds the join count, and the activation
completes with the join marker object stored in params, which finish wraps
into the final result as an object with a single params field. -/
theorem terminal_join_behavior (fsmLen : Nat) (store : Store) (p : ActState) (j : JoinInfo)
    (hj : p.s.join = some j)
    (hterm : p.s.state < 0 ∨ (fsmLen : Int) ≤ p.s.state) :
    ∃ store2 p2,
      stepTerminalJoin fsmLen store p = some (store2, p2) ∧
      p2.params = .obj [("method", .str "join"), ("sessionId", .str p.s.session),
        ("barrierId", .str j.barrierId), ("position", .num j.position)] ∧
      finish p2 = .obj [("params", .obj [("method", .str "join"),
        ("sessionId", .str p.s.session), ("barrierId", .str j.barrierId),
        ("position", .num j.position)])] ∧
      (store (live j.barrierId) = none → store2 = store) ∧
      (∀ l, store (live j.barrierId) = some l →
        (j.count < (l.length : Int) + 1 →
          store2 (done j.barrierId) =
            some ((JValue.obj [("position", .num j.position), ("params", p.params)]) :: l) ∧
          store2 (live j.barrierId) = none) ∧
        ((l.length : Int) + 1 ≤ j.count →
          store2 (live j.barrierId) =
            some ((JValue.obj [("position", .num j.position), ("params", p.params)]) :: l) ∧
          store2 (done j.barrierId) = store (done j.barrierId))) := by
  rcases hl : store (live j.barrierId) with _ | l
  · have hstep : stepTerminalJoin fsmLen store p = some (store,
        { p with params := .obj [("method", .str "join"), ("sessionId", .str p.s.session),
            ("barrierId", .str j.barrierId), ("position", .num j.position)] }) := by
      rw [stepTerminalJoin, if_pos hterm, hj]
      simp only [lpushx, hl]
      by_cases hc : j.count < (0 : Int)
      · rw [if_pos hc, renameKey, hl]
      · rw [if_neg hc]
    refine ⟨_, _, hstep, rfl, ?_, fun _ => rfl, fun l2 hl2 => ?_⟩
    · simp [finish, getField, jsLookup, jsTruthy]
    · cases hl2
  · by_cases hc : j.count < (l.length : Int) + 1
    · have hstep : stepTerminalJoin fsmLen store p = some
          (storeSet (storeDel (storeSet store (live j.barrierId)
              ((JValue.obj [("position", .num j.position), ("params", p.params)]) :: l))
              (live j.barrierId)) (done j.barrierId)
              ((JValue.obj [("position", .num j.position), ("params", p.params)]) :: l),
            { p with params := .obj [("method", .str "join"), ("sessionId", .str p.s.session),
                ("barrierId", .str j.barrierId), ("position", .num j.position)] }) := by
        rw [stepTerminalJoin, if_pos hterm, hj]
        simp only [lpushx, hl]
        rw [if_pos hc, renameKey]
        rw [show storeSet store (live j.barrierId)
            ((JValue.obj [("position", .num j.position), ("params", p.params)]) :: l)
            (live j.barrierId) =
          some ((JValue.obj [("position", .num j.position), ("params", p.params)]) :: l)
          from by simp [storeSet]]
      refine ⟨_, _, hstep, rfl, ?_, ?_, fun l2 hl2 => ⟨fun _ => ⟨?_, ?_⟩, fun hle => ?_⟩⟩
      · simp [finish, getField, jsLookup, jsTruthy]
      · intro habs
        cases habs
      · cases hl2
        simp [storeSet]
      · cases hl2
        rw [show (storeSet (storeDel (storeSet store (live j.barrierId)
            ((JValue.obj [("position", .num j.position), ("params", p.params)]) :: l))
            (live j.barrierId)) (done j.barrierId)
            ((JValue.obj [("position", .num j.position), ("params", p.params)]) :: l))
            (live j.barrierId) =
          (storeDel (storeSet store (live j.barrierId)
            ((JValue.obj [("position", .num j.position), ("params", p.params)]) :: l))
            (live j.barrierId)) (live j.barrierId) from by
          simp [storeSet, live_ne_done]]
        simp [storeDel]
      · cases hl2
        omega
    · have hstep : stepTerminalJoin fsmLen store p = some
          (storeSet store (live j.barrierId)
            ((JValue.obj [("position", .num j.position), ("params", p.params)]) :: l),
            { p with params := .obj [("method", .str "join"), ("sessionId", .str p.s.session),
                ("barrierId", .str j.barrierId), ("position", .num j.position)] }) := by
        rw [stepTerminalJoin, if_pos hterm, hj]
        simp only [lpushx, hl]
        rw [if_neg hc]
      refine ⟨_, _, hstep, rfl, ?_, ?_, fun l2 hl2 => ⟨fun hlt => ?_, fun _ => ⟨?_, ?_⟩⟩⟩
      · simp [finish, getField, jsLookup, jsTruthy]
      · intro habs
        cases habs
      · cases hl2
        omega
      · cases hl2
        simp [storeSet]
      · cases hl2
        simp [storeSet, (live_ne_done j.barrierId).symm]

/-- Claim C6 witness: one branch of a two-branch barrier terminates while
the sentinel is still alone in the live list; the push succeeds and no
rename happens yet. -/
theorem terminal_join_behavior_witness :
    joinSampleState.s.join = some ⟨"bb", 1, 2⟩ ∧
    (joinSampleState.s.state < 0 ∨ ((7 : Nat) : Int) ≤ joinSampleState.s.state) ∧
    (∃ store2 p2,
      stepTerminalJoin 7 joinSampleStore joinSampleState = some (store2, p2) ∧
      p2.params = .obj [("method", .str "join"),
        ("sessionId", .str joinSampleState.s.session),
        ("barrierId", .str "bb"), ("position", .num 1)] ∧
      finish p2 = .obj [("params", .obj [("method", .str "join"),
        ("sessionId", .str joinSampleState.s.session), ("barrierId", .str "bb"),
        ("position", .num 1)])] ∧
      (joinSampleStore (live "bb") = none → store2 = joinSampleStore) ∧
      (∀ l, joinSampleStore (live "bb") = some l →
        ((2 : Int) < (l.length : Int) + 1 →
          store2 (done "bb") = some ((JValue.obj [("position", .num 1),
            ("params", joinSampleState.params)]) :: l) ∧
          store2 (live "bb") = none) ∧
        ((l.length : Int) + 1 ≤ (2 : Int) →
          store2 (live "bb") = some ((JValue.obj [("position", .num 1),
            ("params", joinSampleState.params)]) :: l) ∧
          store2 (done "bb") = joinSampleStore (done "bb")))) :=
  ⟨rfl, Or.inl (by decide),
    terminal_join_behavior 7 joinSampleStore joinSampleState ⟨"bb", 1, 2⟩ rfl
      (Or.inl (by decide))⟩

/-! Claim C7: the function combinator result handling. -/

/-- Claim C7: for the function combinator, an undefined body result leaves
params unchanged, a function-typed result turns params into an error object
naming the AST node, and any other result becomes the new params (the
handler then runs inspect, claim C3). The round trip hypotheses say the
values survive the JSON deep clone the code applies, which holds for every
JSON value. -/
theorem function_result_params (parentPath : String) (p : ActState) (r : JValue)
    (hp : jsonRoundTrip p.params = p.params) :
    ((functionUpdate parentPath p .undef).params = p.params) ∧
    (isFunc r = true → (functionUpdate parentPath p r).params =
      .obj [("error",
        .str ("Function combinator evaluated to a function type at AST node root"
          ++ parentPath))]) ∧
    (isUndef r = false → isFunc r = false → jsonRoundTrip r = r →
      (functionUpdate parentPath p r).params = r) := by
  refine ⟨?_, ?_, ?_⟩
  · exact hp
  · intro hf
    cases r <;> simp [isFunc] at hf
    simp [functionUpdate, isFunc, jsonRoundTrip, rtFields]
  · intro hu hf hr
    cases r with
    | undef => simp [isUndef] at hu
    | func => simp [isFunc] at hf
    | null => exact hr
    | bool b => exact hr
    | num n => exact hr
    | str s => exact hr
    | arr xs => exact hr
    | obj fs => exact hr

/-- Claim C7 witness at a concrete object params and a number result. -/
theorem function_result_params_witness :
    jsonRoundTrip (JValue.obj [("x", JValue.num 1)]) = JValue.obj [("x", JValue.num 1)] ∧
    (((functionUpdate "p" { s := {}, params := JValue.obj [("x", JValue.num 1)] }
          .undef).params = JValue.obj [("x", JValue.num 1)]) ∧
      (isFunc (JValue.num 5) = true →
        (functionUpdate "p" { s := {}, params := JValue.obj [("x", JValue.num 1)] }
            (JValue.num 5)).params =
          .obj [("error",
            .str ("Function combinator evaluated to a function type at AST node root"
              ++ "p"))]) ∧
      (isUndef (JValue.num 5) = false → isFunc (JValue.num 5) = false →
        jsonRoundTrip (JValue.num 5) = JValue.num 5 →
        (functionUpdate "p" { s := {}, params := JValue.obj [("x", JValue.num 1)] }
            (JValue.num 5)).params = JValue.num 5)) :=
  ⟨by simp [jsonRoundTrip, rtFields],
    function_result_params "p" { s := {}, params := JValue.obj [("x", JValue.num 1)] }
      (JValue.num 5) (by simp [jsonRoundTrip, rtFields])⟩

/-! Claim C8: the view and environment of run. -/

theorem jsLookup_setKey_self (a : List (String × JValue)) (k : String) (v : JValue) :
    jsLookup (setKey a k v) k = some v := by
  induction a with
  | nil => simp [setKey, jsLookup]
  | cons kv rest ih =>
    obtain ⟨k1, v1⟩ := kv
    by_cases h : k1 = k
    · simp [setKey, h, jsLookup]
    · simp [setKey, h, jsLookup, ih]

theorem jsLookup_setKey_ne (a : List (String × JValue)) (k k2 : String) (v : JValue)
    (h : k2 ≠ k) : jsLookup (setKey a k v) k2 = jsLookup a k2 := by
  induction a with
  | nil => simp [setKey, jsLookup, Ne.symm h]
  | cons kv rest ih =>
    obtain ⟨k1, v1⟩ := kv
    by_cases h1 : k1 = k
    · subst h1
      simp [setKey, jsLookup, Ne.symm h]
    · simp only [setKey, if_neg h1, jsLookup]
      by_cases h2 : k1 = k2
      · simp [h2]
      · simp [h2, ih]

theorem jsLookup_eq_none_of_not_mem (m : List (String × JValue)) (k : String)
    (h : k ∉ m.map Prod.fst) : jsLookup m k = none := by
  induction m with
  | nil => rfl
  | cons kv rest ih =>
    rw [List.map_cons, List.mem_cons] at h
    push_neg at h
    obtain ⟨k1, v1⟩ := kv
    simp only [jsLookup]
    rw [if_neg (fun hh => h.1 hh.symm)]
    exact ih h.2

theorem jsLookup_objAssign (acc m : List (String × JValue)) (k : String)
    (hnodup : (m.map Prod.fst).Nodup) :
    jsLookup (objAssign acc m) k =
      match jsLookup m k with
      | some v => some v
      | none => jsLookup acc k := by
  induction m generalizing acc with
  | nil => rfl
  | cons kv rest ih =>
    obtain ⟨k1, v1⟩ := kv
    rw [List.map_cons, List.nodup_cons] at hnodup
    have hstep : objAssign acc ((k1, v1) :: rest) = objAssign (setKey acc k1 v1) rest := rfl
    rw [hstep, ih _ hnodup.2]
    by_cases h : k1 = k
    · subst h
      rw [jsLookup_eq_none_of_not_mem rest k1 hnodup.1]
      simp [jsLookup, jsLookup_setKey_self]
    · rw [jsLookup_setKey_ne acc k1 k v1 (fun hh => h hh.symm)]
      simp [jsLookup, h]

theorem collapseEnv_cons (f : Frame) (rest : List Frame) :
    collapseEnv (f :: rest) =
      match f.lett with
      | some (some m) => objAssign (collapseEnv rest) m
      | _ => collapseEnv rest := rfl

theorem jsLookup_collapseEnv (v : List Frame) (k : String)
    (hnodup : v.all frameKeysNodup = true) :
    jsLookup (collapseEnv v) k = firstBinding v k := by
  induction v with
  | nil => rfl
  | cons f rest ih =>
    rw [List.all_cons, Bool.and_eq_true] at hnodup
    cases hf : f.lett with
    | none =>
      rw [collapseEnv_cons, firstBinding, hf]
      exact ih hnodup.2
    | some mo =>
      cases mo with
      | none =>
        rw [collapseEnv_cons, firstBinding, hf]
        exact ih hnodup.2
      | some m =>
        rw [collapseEnv_cons, firstBinding, hf]
        have hm : (m.map Prod.fst).Nodup := by
          have hx := hnodup.1
          rw [frameKeysNodup, hf] at hx
          exact of_decide_eq_true hx
        rw [jsLookup_objAssign _ _ _ hm, ih hnodup.2]

theorem viewAux_succ_removeFirstLet (s : List Frame) (n : Nat) :
    viewAux (n + 1) s = viewAux n (removeFirstLet s) := by
  induction s generalizing n with
  | nil => rfl
  | cons f rest ih =>
    cases hf : f.lett with
    | none => simp [viewAux, removeFirstLet, isLetFrame, hf, ih]
    | some mo =>
      cases mo with
      | none => simp [viewAux, removeFirstLet, isLetFrame, hf, ih]
      | some m => simp [viewAux, removeFirstLet, isLetFrame, hf]

/-- Claim C8: in the view construction of run, a mask frame excludes from
the view exactly the innermost non-null let frame beneath it, whatever the
skip counter already says about the context above; and in the collapsed
environment a name is supplied by the frame nearest the top of the view
that binds it, so nearer frames shadow farther ones. The key hypothesis
says the binding objects carry no duplicate keys, as JavaScript objects
cannot. -/
theorem run_view_mask_shadowing :
    (∀ (f : Frame), f.lett = some none → ∀ (n : Nat) (s : List Frame),
      viewAux n (f :: s) = viewAux n (removeFirstLet s)) ∧
    (∀ (stack : List Frame) (k : String),
      (view stack).all frameKeysNodup = true →
      jsLookup (collapseEnv (view stack)) k = firstBinding (view stack) k) := by
  constructor
  · intro f hf n s
    have hstep : viewAux n (f :: s) = viewAux (n + 1) s := by
      simp [viewAux, hf]
    rw [hstep, viewAux_succ_removeFirstLet]
  · intro stack k h
    exact jsLookup_collapseEnv _ _ h

/-- Claim C8 witness: a mask over two let frames hides the inner one, and
the nearer binding of x wins in the collapsed environment. -/
theorem run_view_mask_shadowing_witness :
    (maskFrame.lett = some none) ∧
    ((view [({ lett := some (some [("x", JValue.num 1)]) } : Frame),
        ({ lett := some (some [("x", JValue.num 2), ("y", JValue.num 3)]) } : Frame)]).all
      frameKeysNodup = true) ∧
    (viewAux 0 (maskFrame :: [({ lett := some (some [("x", JValue.num 1)]) } : Frame),
        ({ lett := some (some [("x", JValue.num 2), ("y", JValue.num 3)]) } : Frame)]) =
      viewAux 0 (removeFirstLet [({ lett := some (some [("x", JValue.num 1)]) } : Frame),
        ({ lett := some (some [("x", JValue.num 2), ("y", JValue.num 3)]) } : Frame)])) ∧
    (jsLookup (collapseEnv (view [({ lett := some (some [("x", JValue.num 1)]) } : Frame),
        ({ lett := some (some [("x", JValue.num 2), ("y", JValue.num 3)]) } : Frame)])) "x" =
      firstBinding (view [({ lett := some (some [("x", JValue.num 1)]) } : Frame),
        ({ lett := some (some [("x", JValue.num 2), ("y", JValue.num 3)]) } : Frame)]) "x") :=
  ⟨rfl, rfl,
    run_view_mask_shadowing.1 maskFrame rfl 0 _,
    run_view_mask_shadowing.2 _ "x" rfl⟩

/-! Claim C9: exit on an empty stack. -/

/-- Claim C9: when an exit state executes on an empty stack, no frame is
popped, the handler rejects with the internal error message, and the
entrypoint catch normalises it so the activation terminates with the final
result holding only the prefixed error message. -/
theorem exit_empty_stack_internal_error (p : ActState) (h : p.s.stack = []) :
    conductorExit p = Except.error "pop from an empty stack" ∧
    (entryCatch p "pop from an empty stack").s.stack = p.s.stack ∧
    finish (entryCatch p "pop from an empty stack") =
      .obj [("error", .str "Internal error: pop from an empty stack")] := by
  refine ⟨?_, rfl, ?_⟩
  · rw [conductorExit, if_pos (by rw [h]; rfl)]
  · rfl

/-- Claim C9 witness at the empty initial state. -/
theorem exit_empty_stack_internal_error_witness :
    (({ s := {}, params := JValue.obj [] } : ActState).s.stack = []) ∧
    (conductorExit { s := {}, params := JValue.obj [] } =
        Except.error "pop from an empty stack" ∧
      (entryCatch { s := {}, params := JValue.obj [] } "pop from an empty stack").s.stack =
        ({ s := {}, params := JValue.obj [] } : ActState).s.stack ∧
      finish (entryCatch { s := {}, params := JValue.obj [] } "pop from an empty stack") =
        .obj [("error", .str "Internal error: pop from an empty stack")]) :=
  ⟨rfl, exit_empty_stack_internal_error _ rfl⟩

/-! Claim C10: empty parallel and empty map. -/

/-- Claim C10: a parallel node with no tasks, or a map whose incoming value
is absent or the empty array, returns immediately with the empty aggregate
value and the state set to the return target, with the immediate outcome,
before the redis configuration is validated and before any store contact,
barrier creation or spawn, so it succeeds for every activation state,
including one carrying no redis configuration at all. -/
theorem fork_empty_immediate (p : ActState) (index : Int) (node : StateRec)
    (htasks : node.tasks = some [])
    (hval : getField p.params "value" = .undef ∨ getField p.params "value" = .arr []) :
    conductorParallel p index node =
      ({ p with s := { p.s with state := index + node.returnJ.getD 0 },
                params := .obj [("value", .arr [])] }, ForkOutcome.immediate) ∧
    conductorMap p index node =
      ({ p with s := { p.s with state := index + node.returnJ.getD 0 },
                params := .obj [("value", .arr [])] }, ForkOutcome.immediate) := by
  constructor
  · rw [conductorParallel, htasks]
    rfl
  · rw [conductorMap]
    have harr : mapArray p.params = [] := by
      rcases hval with h | h <;> simp [mapArray, h]
    rw [harr]
    rfl

/-- Claim C10 witness: a parallel head with no tasks and a params without a
value field, on a state with no redis configuration. -/
theorem fork_empty_immediate_witness :
    (({ type := "parallel", returnJ := some 3, tasks := some [] } : StateRec).tasks
        = some []) ∧
    (getField (JValue.obj []) "value" = JValue.undef ∨
      getField (JValue.obj []) "value" = JValue.arr []) ∧
    (conductorParallel { s := {}, params := JValue.obj [] } 2
        { type := "parallel", returnJ := some 3, tasks := some [] } =
      ({ s := { state := 2 + 3 }, params := JValue.obj [("value", JValue.arr [])] },
        ForkOutcome.immediate) ∧
    conductorMap { s := {}, params := JValue.obj [] } 2
        { type := "parallel", returnJ := some 3, tasks := some [] } =
      ({ s := { state := 2 + 3 }, params := JValue.obj [("value", JValue.arr [])] },
        ForkOutcome.immediate)) :=
  ⟨rfl, Or.inl rfl,
    fork_empty_immediate { s := {}, params := JValue.obj [] } 2
      { type := "parallel", returnJ := some 3, tasks := some [] } rfl (Or.inl rfl)⟩

end Conductor
